import Mathlib

/-
Verification of the pg-advisory-lock core: key derivation (src/key.ts),
the reentrant connection coordinator NestingPool (src/pool.ts) and the
AdvisoryLockMutex (src/mutex.ts), shallowly embedded in Lean.
-/

namespace PgAdvisoryLock

/-! ## Key derivation (src/key.ts) -/

/-- Source: `const mask64 = (1n << 64n) - 1n`. -/
def mask64 : Nat := 2 ^ 64 - 1

/-- One fold step of the djb2 variant, transcribed from
`hash = ((hash * 33n) ^ BigInt(str.charCodeAt(i))) & mask64`.
Strings are modelled as their list of UTF-16 code units. -/
def djb2Step (h c : Nat) : Nat := ((h * 33) ^^^ c) &&& mask64

/-- The fold of `createAdvisoryLockKey` over all code units, seed 5381. -/
def djb2Hash (units : List Nat) : Nat := units.foldl djb2Step 5381

/-- Source: `unsignedToSigned64`: subtract 2^64 when the value is ≥ 2^63. -/
def unsignedToSigned64 (n : Nat) : Int :=
  if n ≥ 2 ^ 63 then (n : Int) - 2 ^ 64 else (n : Int)

/-- Source: `createAdvisoryLockKey(str)`: djb2 fold then signed reinterpretation. -/
def createAdvisoryLockKey (units : List Nat) : Int :=
  unsignedToSigned64 (djb2Hash units)

/-- The fold step exactly as the spec words it: `((accumulator × 33) XOR
codeUnit) mod 2⁶⁴` (the source uses a bitwise AND with `mask64` instead). -/
def djb2StepSpec (h c : Nat) : Nat := ((h * 33) ^^^ c) % 2 ^ 64

/-- The whole derivation as the spec words it. -/
def createAdvisoryLockKeySpec (units : List Nat) : Int :=
  unsignedToSigned64 (units.foldl djb2StepSpec 5381)

theorem djb2Step_eq_spec (h c : Nat) : djb2Step h c = djb2StepSpec h c := by
  unfold djb2Step djb2StepSpec mask64
  exact Nat.and_pow_two_sub_one_eq_mod _ 64

theorem djb2Step_lt (h c : Nat) : djb2Step h c < 2 ^ 64 := by
  rw [djb2Step_eq_spec]
  exact Nat.mod_lt _ (by norm_num)

theorem foldl_djb2Step_lt (units : List Nat) :
    ∀ h : Nat, h < 2 ^ 64 → units.foldl djb2Step h < 2 ^ 64 := by
  induction units with
  | nil => intro h hh; simpa using hh
  | cons c cs ih =>
      intro h _
      simpa [List.foldl_cons] using ih (djb2Step h c) (djb2Step_lt h c)

theorem djb2Hash_lt (units : List Nat) : djb2Hash units < 2 ^ 64 :=
  foldl_djb2Step_lt units 5381 (by norm_num)

theorem unsignedToSigned64_range (n : Nat) (hn : n < 2 ^ 64) :
    -(2 ^ 63) ≤ unsignedToSigned64 n ∧ unsignedToSigned64 n < 2 ^ 63 := by
  unfold unsignedToSigned64
  by_cases h : n ≥ 2 ^ 63
  · rw [if_pos h]
    constructor
    · have : (2 ^ 63 : Int) ≤ (n : Int) := by exact_mod_cast h
      omega
    · have : (n : Int) < 2 ^ 64 := by exact_mod_cast hn
      omega
  · rw [if_neg h]
    push_neg at h
    constructor
    · have : (0 : Int) ≤ (n : Int) := Int.ofNat_nonneg n
      omega
    · exact_mod_cast h

/-- Claim C5: `createAdvisoryLockKey` equals the djb2-variant fold as the spec
words it (seed 5381; per code unit, `((acc * 33) XOR unit) mod 2^64`; final
value reinterpreted as signed 64-bit two's complement), the empty string is
valid and yields the reinterpreted seed 5381, and every result lies in
`[-2^63, 2^63 - 1]`. -/
theorem c5_createAdvisoryLockKey_djb2 :
    (∀ units : List Nat, createAdvisoryLockKey units = createAdvisoryLockKeySpec units) ∧
    createAdvisoryLockKey [] = unsignedToSigned64 5381 ∧
    createAdvisoryLockKey [] = 5381 ∧
    (∀ units : List Nat,
      -(2 ^ 63) ≤ createAdvisoryLockKey units ∧ createAdvisoryLockKey units < 2 ^ 63) := by
  refine ⟨?_, ?_, ?_, ?_⟩
  · intro units
    unfold createAdvisoryLockKey createAdvisoryLockKeySpec djb2Hash
    congr 1
    have hfun : djb2Step = djb2StepSpec := by
      funext h c
      exact djb2Step_eq_spec h c
    rw [hfun]
  · rfl
  · rfl
  · intro units
    exact unsignedToSigned64_range (djb2Hash units) (djb2Hash_lt units)

/-! ## Effect model

The pool, the clients and the database round trips are modelled by a
state-and-trace monad. A computation takes a read-only database oracle
(the responses the backend returns to successive queries) and a pool
state, and produces the list of observable events it emitted, an
`Except` outcome (a JavaScript rejection is `.error`), and the final
pool state. `AsyncLocalStorage<PoolClient>` is modelled by the
`storage` field of the state; `pool.connect()` hands out fresh client
ids from a counter. -/

/-- A physical connection checked out of the `pg` pool. -/
abbrev ClientId := Nat

/-- A JavaScript error value (abstract). -/
abbrev Err := Nat

/-- A query result: each row is modelled by its `acquired` field —
`none` when the field is absent, `some b` when present with value `b`.
(The advisory lock statements never read any other field.) -/
structure QueryResult where
  rows : List (Option Bool)
deriving DecidableEq

/-- Observable events: checking a connection out of the pool, releasing
it back, and issuing a SQL statement with bound parameters on a
connection. -/
inductive Event where
  | connect (c : ClientId)
  | releaseClient (c : ClientId)
  | query (c : ClientId) (sql : String) (params : List Int)
deriving DecidableEq

/-- The database oracle: the outcome of the n-th query issued in the run
(`.error` models a rejected round trip). -/
structure Db where
  resp : Nat → Except Err QueryResult

/-- The pool state: the `AsyncLocalStorage` binding, the fresh-client
counter, and how many queries have been issued so far. -/
structure PoolSt where
  storage : Option ClientId
  nextId : ClientId
  qIdx : Nat
deriving DecidableEq

/-- A computation: oracle and state in; trace, outcome and state out. -/
def M (α : Type) : Type := Db → PoolSt → List Event × Except Err α × PoolSt

namespace M

def pure (a : α) : M α := fun _ s => ([], .ok a, s)

def bind (m : M α) (f : α → M β) : M β := fun db s =>
  match m db s with
  | (ev, .ok a, s1) =>
      match f a db s1 with
      | (ev2, r, s2) => (ev ++ ev2, r, s2)
  | (ev, .error e, s1) => (ev, .error e, s1)

/-- `throw error` / a rejected promise. -/
def throw (e : Err) : M α := fun _ s => ([], .error e, s)

/-- JavaScript `try { body } finally { fin }`: `fin` always runs; if it
completes normally the body's outcome (value or error) stands, and if it
throws, its error replaces the body's outcome. -/
def tryFinally (body : M α) (fin : M β) : M α := fun db s =>
  match body db s with
  | (ev, r, s1) =>
      match fin db s1 with
      | (ev2, .ok _, s2) => (ev ++ ev2, r, s2)
      | (ev2, .error e, s2) => (ev ++ ev2, .error e, s2)

/-- JavaScript `try { body } catch (e) { h e }`. -/
def tryCatch (body : M α) (h : Err → M α) : M α := fun db s =>
  match body db s with
  | (ev, .ok a, s1) => (ev, .ok a, s1)
  | (ev, .error e, s1) =>
      match h e db s1 with
      | (ev2, r, s2) => (ev ++ ev2, r, s2)

end M

/-- `pool.connect()`: checks a fresh client out of the underlying pool. -/
def connect : M ClientId := fun _ s =>
  ([.connect s.nextId], .ok s.nextId, { s with nextId := s.nextId + 1 })

/-- `client.release()`: returns the client to the underlying pool. -/
def clientRelease (c : ClientId) : M PUnit := fun _ s =>
  ([.releaseClient c], .ok ⟨⟩, s)

/-- `client.query(sql, params)`: emits the statement on the connection and
returns the oracle's outcome for the next round trip. -/
def clientQuery (c : ClientId) (sql : String) (params : List Int) : M QueryResult :=
  fun db s => ([.query c sql params], db.resp s.qIdx, { s with qIdx := s.qIdx + 1 })

/-- `connectionStorage.getStore()`. -/
def getStore : M (Option ClientId) := fun _ s => ([], .ok s.storage, s)

/-- `connectionStorage.enterWith(client)`: binds for the remainder of the
current call chain. -/
def enterWith (c : ClientId) : M PUnit := fun _ s =>
  ([], .ok ⟨⟩, { s with storage := some c })

/-- `connectionStorage.disable()`: clears the binding. -/
def disable : M PUnit := fun _ s => ([], .ok ⟨⟩, { s with storage := none })

/-- `connectionStorage.run(client, body)`: binds `client` for the duration of
`body` and restores the previous binding afterwards, on success and on
throw alike. -/
def alsRun (c : ClientId) (body : M α) : M α := fun db s =>
  match body db { s with storage := some c } with
  | (ev, r, s1) => (ev, r, { s1 with storage := s.storage })

/-! ## NestingPool (src/pool.ts) -/

/-- The record returned by `NestingPool.getClient`: the client and a
release callback (transcribed from `NestingPoolClient` in pool.ts, which
has exactly these two fields). -/
structure NestingPoolClient where
  client : ClientId
  release : M PUnit

/-- Modelled from the spec: the record shape §4.2 describes for the
non-blocking acquisition — `getConnection() -> (conn, releaseFn,
wasReused: bool)` — the connection and release callback together with a
wasReused boolean flag. The current pool.ts returns no such flag; this
type exists only to compare the two shapes. -/
structure NestingPoolClientSpec where
  client : ClientId
  release : M PUnit
  wasReused : Bool

/-- `NestingPool.getClient`: reuse the client bound in the
`AsyncLocalStorage` with a no-op release, or connect a fresh client,
bind it with `enterWith`, and release by `disable()` then
`client.release()`. -/
def getClient : M NestingPoolClient :=
  M.bind getStore fun store =>
    match store with
    | some client => M.pure { client := client, release := M.pure ⟨⟩ }
    | none =>
        M.bind connect fun client =>
          M.bind (enterWith client) fun _ =>
            M.pure { client := client,
                     release := M.bind disable fun _ => clientRelease client }

/-- `NestingPool.withClient(fn)`: run `fn` directly on the client bound in
the `AsyncLocalStorage` when one exists; otherwise connect a fresh
client, run `fn` under `connectionStorage.run`, and always release the
client when `fn` completes. -/
def withClient (fn : ClientId → M α) : M α :=
  M.bind getStore fun existingClient =>
    match existingClient with
    | some c => fn c
    | none =>
        M.bind connect fun client =>
          alsRun client (M.tryFinally (fn client) (clientRelease client))

/-! ## AdvisoryLockMutex (src/mutex.ts) -/

/-- The exact statement strings of src/mutex.ts. -/
def lockSql : String := "SELECT pg_advisory_lock($1)"

def tryLockSql : String := "SELECT pg_try_advisory_lock($1) as acquired"

def unlockSql : String := "SELECT pg_advisory_unlock($1)"

/-- `TryWithLockResult<T> = \x7b acquired: false \x7d | \x7b acquired: true, result: T \x7d`. -/
inductive TryWithLockResult (α : Type) where
  | notAcquired
  | acquired (result : α)
deriving DecidableEq

/-- `result.rows[0]?.acquired`: `none` when there is no first row or the
field is absent. -/
def rowsAcquired (r : QueryResult) : Option Bool := r.rows.head?.bind id

/-- `AdvisoryLockMutex.withLock(fn)` for a mutex whose key is `key`:
via `withClient`, the blocking acquire, then `fn` guarded by a `finally`
that issues the unlock. -/
def withLock (key : Int) (fn : M α) : M α :=
  withClient fun client =>
    M.bind (clientQuery client lockSql [key]) fun _ =>
      M.tryFinally fn (clientQuery client unlockSql [key])

/-- `AdvisoryLockMutex.tryWithLock(fn)`: via `withClient`, the
non-blocking attempt; when the `acquired` field of the first row is
truthy, run `fn` guarded by a `finally` that issues the unlock, else
report not acquired. -/
def tryWithLock (key : Int) (fn : M α) : M (TryWithLockResult α) :=
  withClient fun client =>
    M.bind (clientQuery client tryLockSql [key]) fun result =>
      if rowsAcquired result = some true then
        M.tryFinally (M.bind fn fun r => M.pure (.acquired r))
          (clientQuery client unlockSql [key])
      else
        M.pure .notAcquired

/-- `AdvisoryLockMutex.tryLock()`: via `getClient`, the non-blocking
attempt; when granted, return the unlock closure (unlock statement, then
`release()` in a `finally`); when not granted, `release()` and return
`undefined`; on error, `release()` and rethrow. -/
def tryLock (key : Int) : M (Option (M PUnit)) :=
  M.bind getClient fun npc =>
    M.tryCatch
      (M.bind (clientQuery npc.client tryLockSql [key]) fun result =>
        if rowsAcquired result = some true then
          M.pure (some (M.tryFinally
            (M.bind (clientQuery npc.client unlockSql [key]) fun _ => M.pure ⟨⟩)
            npc.release))
        else
          M.bind npc.release fun _ => M.pure none)
      (fun e => M.bind npc.release fun _ => M.throw e)

/-- `AdvisoryLockMutex.wrapWithLock(fn)`: a function that runs `fn` on its
arguments inside `withLock`. -/
def wrapWithLock (key : Int) (fn : β → M α) : β → M α :=
  fun args => withLock key (fn args)

/-- `createAdvisoryLock(...).withLock(name, fn)` (src/lock.ts): a mutex is
created for `name` — its key is `createAdvisoryLockKey(name)` — and its
`withLock` is invoked. -/
def lockWithLock (name : List Nat) (fn : M α) : M α :=
  withLock (createAdvisoryLockKey name) fn

/-- `createAdvisoryLock(...).wrapWithLock(name, fn)` (src/lock.ts). -/
def lockWrapWithLock (name : List Nat) (fn : β → M α) : β → M α :=
  wrapWithLock (createAdvisoryLockKey name) fn

/-- A depth-indexed nesting probe (mirrors the nested-call tests of
pool.test.ts): `n + 1` nested `withClient` calls, collecting the client
each level receives, outermost first. -/
def nestedClients : Nat → M (List ClientId)
  | 0 => withClient fun c => M.pure [c]
  | n + 1 => withClient fun c =>
      M.bind (nestedClients n) fun cs => M.pure (c :: cs)

/-! ## Run lemmas for the coordinator -/

/-- When a client is bound in the storage, `withClient` is exactly the
direct invocation of its callback on that client. -/
theorem withClient_reuse (fn : ClientId → M α) (c : ClientId) (db : Db) (s : PoolSt)
    (h : s.storage = some c) : withClient fn db s = fn c db s := by
  unfold withClient M.bind getStore
  rcases hfc : fn c db s with ⟨ev, r, s2⟩
  simp [h, hfc]

/-- When no client is bound, `withClient` connects a fresh client, runs the
callback under the binding, then releases the client and restores the
empty binding. -/
theorem withClient_fresh (fn : ClientId → M α) (db : Db) (s : PoolSt)
    (h : s.storage = none)
    (evF : List Event) (rF : Except Err α) (s2 : PoolSt)
    (hfn : fn s.nextId db
        { storage := some s.nextId, nextId := s.nextId + 1, qIdx := s.qIdx } =
        (evF, rF, s2)) :
    withClient fn db s =
      (.connect s.nextId :: (evF ++ [.releaseClient s.nextId]), rF,
        { s2 with storage := none }) := by
  unfold withClient M.bind getStore connect alsRun M.tryFinally clientRelease
  simp only [h]
  rcases rF with e | a <;> simp [hfn]

/-- Inside an established binding, the nesting probe touches neither the
pool nor the state and reports the bound client at every level. -/
theorem nestedClients_reuse (n : Nat) (c : ClientId) (db : Db) (s : PoolSt)
    (h : s.storage = some c) :
    nestedClients n db s = ([], .ok (List.replicate (n + 1) c), s) := by
  induction n with
  | zero =>
      rw [nestedClients, withClient_reuse _ c db s h]
      simp [M.pure, List.replicate]
  | succ n ih =>
      rw [nestedClients, withClient_reuse _ c db s h]
      simp [M.bind, ih, M.pure, List.replicate]

/-- Claim C1: when the current call chain already has a bound connection,
`NestingPool.withClient` invokes the work function directly on that bound
connection — no new acquisition, no release, no other effect of its own —
and nested `withClient` calls at any depth all receive the connection of
the outermost call. -/
theorem c1_withClient_reuse_nesting :
    (∀ (α : Type) (fn : ClientId → M α) (c : ClientId) (db : Db) (s : PoolSt),
      s.storage = some c → withClient fn db s = fn c db s) ∧
    (∀ (n : Nat) (db : Db) (s : PoolSt), s.storage = none →
      (nestedClients (n + 1) db s).2.1 = .ok (List.replicate (n + 2) s.nextId)) := by
  constructor
  · intro α fn c db s h
    exact withClient_reuse fn c db s h
  · intro n db s h
    rw [nestedClients,
      withClient_fresh _ db s h ([] : List Event)
        (.ok (s.nextId :: List.replicate (n + 1) s.nextId))
        { storage := some s.nextId, nextId := s.nextId + 1, qIdx := s.qIdx } ?_]
    · simp [List.replicate]
    · rw [show (M.bind (nestedClients n) fun cs => M.pure (s.nextId :: cs)) db
          { storage := some s.nextId, nextId := s.nextId + 1, qIdx := s.qIdx } =
          _ from rfl]
      unfold M.bind
      rw [nestedClients_reuse n s.nextId db _ rfl]
      simp [M.pure]

/-- Witness for C1 at concrete inputs: a reusing `withClient` on a state
with client 7 bound is the direct call, and a depth-3 nesting from an
empty binding reports the same fresh client 5 at all four levels. -/
theorem c1_witness :
    withClient (fun c => M.pure (c + 1)) ⟨fun _ => .ok ⟨[]⟩⟩ ⟨some 7, 0, 0⟩ =
      ([], .ok 8, ⟨some 7, 0, 0⟩) ∧
    (nestedClients 3 ⟨fun _ => .ok ⟨[]⟩⟩ ⟨none, 5, 0⟩).2.1 = .ok [5, 5, 5, 5] := by
  constructor
  · exact (c1_withClient_reuse_nesting.1 Nat (fun c => M.pure (c + 1)) 7
      ⟨fun _ => .ok ⟨[]⟩⟩ ⟨some 7, 0, 0⟩ rfl).trans rfl
  · have h := c1_withClient_reuse_nesting.2 2 ⟨fun _ => .ok ⟨[]⟩⟩ ⟨none, 5, 0⟩ rfl
    simpa [List.replicate] using h

/-- Claim C6: the function returned by `wrapWithLock(key, fn)`, applied to
any argument tuple, is the same computation as `withLock(key, () => fn(args))`
— identical trace, result and propagated error — both at the mutex level
and through the src/lock.ts factory wrappers. -/
theorem c6_wrapWithLock_equiv :
    (∀ (α β : Type) (key : Int) (fn : β → M α) (args : β),
      wrapWithLock key fn args = withLock key (fn args)) ∧
    (∀ (α β : Type) (name : List Nat) (fn : β → M α) (args : β),
      lockWrapWithLock name fn args = lockWithLock name (fn args)) :=
  ⟨fun _ _ _ _ _ => rfl, fun _ _ _ _ _ => rfl⟩

/-- Counterexample to claim C8 as stated: the record `getClient` returns
carries no wasReused boolean flag — a `NestingPoolClient` is fully
determined by its connection and its release callback, whereas any
record carrying the claimed flag is not: the two concrete values of the
spec-worded shape that agree on connection (0) and release (the no-op)
but differ in the flag are distinct. -/
theorem c8_counterexample :
    (∀ x y : NestingPoolClient, x.client = y.client → x.release = y.release → x = y) ∧
    ¬ (∀ x y : NestingPoolClientSpec,
        x.client = y.client → x.release = y.release → x = y) := by
  constructor
  · intro x y h1 h2
    rcases x with ⟨xc, xr⟩
    rcases y with ⟨yc, yr⟩
    dsimp only at h1 h2
    subst h1
    subst h2
    rfl
  · intro hall
    have h := hall ⟨0, M.pure ⟨⟩, true⟩ ⟨0, M.pure ⟨⟩, false⟩ rfl rfl
    injection h with h1 h2 h3
    exact Bool.noConfusion h3

/-- Claim C8 (amended: `getClient` returns only the connection and the
release callback — the returned record carries no wasReused flag, and
reuse is the condition that a client is bound when it is called):
`getClient` yields the bound client with a no-op release when a
connection is already bound (reuse), and otherwise a fresh client whose
release clears the binding and returns exactly that client to the pool;
the release is a no-op exactly in the reuse case (the fresh release is
never a no-op). -/
theorem c8_getClient_release :
    (∀ (db : Db) (s : PoolSt) (c : ClientId), s.storage = some c →
      getClient db s = ([], .ok ⟨c, M.pure ⟨⟩⟩, s)) ∧
    (∀ (db : Db) (s : PoolSt), s.storage = none →
      getClient db s =
        ([.connect s.nextId],
          .ok ⟨s.nextId, M.bind disable fun _ => clientRelease s.nextId⟩,
          { s with storage := some s.nextId, nextId := s.nextId + 1 })) ∧
    (∀ (c : ClientId) (db : Db) (s : PoolSt),
      (M.bind disable fun _ => clientRelease c) db s =
        ([.releaseClient c], .ok ⟨⟩, { s with storage := none })) ∧
    (∀ c : ClientId, (M.bind disable fun _ => clientRelease c) ≠ M.pure ⟨⟩) := by
  refine ⟨?_, ?_, ?_, ?_⟩
  · intro db s c h
    simp [getClient, M.bind, getStore, M.pure, h]
  · intro db s h
    simp [getClient, M.bind, getStore, M.pure, connect, enterWith, h]
  · intro c db s
    simp [M.bind, disable, clientRelease]
  · intro c hcontra
    have h := congrFun (congrFun hcontra ⟨fun _ => .ok ⟨[]⟩⟩) ⟨none, 0, 0⟩
    simp [M.bind, disable, clientRelease, M.pure] at h

/-- Witness for C8 at concrete inputs: reuse state with client 4 bound,
and fresh acquisition from the empty state. -/
theorem c8_witness :
    getClient ⟨fun _ => .ok ⟨[]⟩⟩ ⟨some 4, 9, 2⟩ =
      ([], .ok ⟨4, M.pure ⟨⟩⟩, ⟨some 4, 9, 2⟩) ∧
    getClient ⟨fun _ => .ok ⟨[]⟩⟩ ⟨none, 9, 2⟩ =
      ([.connect 9], .ok ⟨9, M.bind disable fun _ => clientRelease 9⟩,
        ⟨some 9, 10, 2⟩) ∧
    (M.bind disable fun _ => clientRelease 9) ⟨fun _ => .ok ⟨[]⟩⟩ ⟨some 9, 10, 2⟩ =
      ([.releaseClient 9], .ok ⟨⟩, ⟨none, 10, 2⟩) := by
  refine ⟨?_, ?_, ?_⟩
  · exact c8_getClient_release.1 ⟨fun _ => .ok ⟨[]⟩⟩ ⟨some 4, 9, 2⟩ 4 rfl
  · exact c8_getClient_release.2.1 ⟨fun _ => .ok ⟨[]⟩⟩ ⟨none, 9, 2⟩ rfl
  · exact c8_getClient_release.2.2.1 9 ⟨fun _ => .ok ⟨[]⟩⟩ ⟨some 9, 10, 2⟩

/-- Claim C2: when `withClient` itself established the binding (nothing was
bound on entry) and the work function fails, the trace is the fresh
connect, the work function's own events, and exactly one release of that
connection — issued by the outermost scope after the failure — the
binding is cleared in the final state, and the error propagates
unchanged. -/
theorem c2_withClient_error_cleanup :
    ∀ (α : Type) (fn : ClientId → M α) (db : Db) (s : PoolSt) (e : Err)
      (evF : List Event) (s2 : PoolSt),
      s.storage = none →
      fn s.nextId db { storage := some s.nextId, nextId := s.nextId + 1, qIdx := s.qIdx } =
        (evF, .error e, s2) →
      withClient fn db s =
        (.connect s.nextId :: (evF ++ [.releaseClient s.nextId]), .error e,
          { s2 with storage := none }) ∧
      (Event.releaseClient s.nextId ∉ evF →
        (Event.connect s.nextId :: (evF ++ [Event.releaseClient s.nextId])).count
          (Event.releaseClient s.nextId) = 1) := by
  intro α fn db s e evF s2 h hfn
  refine ⟨withClient_fresh fn db s h evF (.error e) s2 hfn, ?_⟩
  intro hnot
  rw [List.count_cons, List.count_append]
  rw [List.count_eq_zero_of_not_mem hnot]
  simp

/-- Witness for C2: a work function that connects nothing and throws
error 3; run from the empty binding with fresh client 5. -/
theorem c2_witness :
    withClient (fun _ => M.throw (α := Nat) 3) ⟨fun _ => .ok ⟨[]⟩⟩ ⟨none, 5, 0⟩ =
      ([.connect 5, .releaseClient 5], .error 3, ⟨none, 6, 0⟩) ∧
    ([Event.connect 5, Event.releaseClient 5].count (Event.releaseClient 5) = 1) := by
  have h := c2_withClient_error_cleanup Nat (fun _ => M.throw 3)
    ⟨fun _ => .ok ⟨[]⟩⟩ ⟨none, 5, 0⟩ 3 [] ⟨some 5, 6, 0⟩ rfl rfl
  refine ⟨h.1, ?_⟩
  have h2 := h.2 (List.not_mem_nil _)
  simp only [List.nil_append] at h2
  exact h2

/-- The body of `withLock` run on a given client: acquire query, the
guarded function, unlock query; stated under successful acquire and
unlock round trips. -/
theorem withLock_body_run (key : Int) (fn : M α) (c : ClientId) (db : Db) (s : PoolSt)
    (rA rU : QueryResult) (evF : List Event) (rF : Except Err α) (s2 : PoolSt)
    (hA : db.resp s.qIdx = .ok rA)
    (hfn : fn db { s with qIdx := s.qIdx + 1 } = (evF, rF, s2))
    (hU : db.resp s2.qIdx = .ok rU) :
    (M.bind (clientQuery c lockSql [key]) fun _ =>
      M.tryFinally fn (clientQuery c unlockSql [key])) db s =
    (.query c lockSql [key] :: (evF ++ [.query c unlockSql [key]]), rF,
      { s2 with qIdx := s2.qIdx + 1 }) := by
  unfold M.bind M.tryFinally clientQuery
  simp only [hA, hfn, hU, List.singleton_append]

/-- Claim C3: `withLock` issues the blocking acquire for its key, then runs
`fn`, then issues the release unconditionally — whether `fn` succeeded or
failed — and returns `fn`'s outcome unchanged; stated both for a reusing
call (a client already bound) and for an outermost call (fresh client,
which is additionally released to the pool after the unlock). -/
theorem c3_withLock_release_always :
    ∀ (α : Type) (key : Int) (fn : M α) (db : Db) (s : PoolSt)
      (rA rU : QueryResult) (evF : List Event) (rF : Except Err α) (s2 : PoolSt),
      (∀ c : ClientId, s.storage = some c →
        db.resp s.qIdx = .ok rA →
        fn db { s with qIdx := s.qIdx + 1 } = (evF, rF, s2) →
        db.resp s2.qIdx = .ok rU →
        withLock key fn db s =
          (.query c lockSql [key] :: (evF ++ [.query c unlockSql [key]]), rF,
            { s2 with qIdx := s2.qIdx + 1 })) ∧
      (s.storage = none →
        db.resp s.qIdx = .ok rA →
        fn db { storage := some s.nextId, nextId := s.nextId + 1, qIdx := s.qIdx + 1 } =
          (evF, rF, s2) →
        db.resp s2.qIdx = .ok rU →
        withLock key fn db s =
          (.connect s.nextId :: .query s.nextId lockSql [key] ::
              (evF ++ [.query s.nextId unlockSql [key], .releaseClient s.nextId]), rF,
            { s2 with qIdx := s2.qIdx + 1, storage := none })) := by
  intro α key fn db s rA rU evF rF s2
  constructor
  · intro c hs hA hfn hU
    rw [withLock, withClient_reuse _ c db s hs]
    exact withLock_body_run key fn c db s rA rU evF rF s2 hA hfn hU
  · intro hs hA hfn hU
    rw [withLock,
      withClient_fresh _ db s hs
        (.query s.nextId lockSql [key] :: (evF ++ [.query s.nextId unlockSql [key]]))
        rF { s2 with qIdx := s2.qIdx + 1 }
        (withLock_body_run key fn s.nextId db
          { storage := some s.nextId, nextId := s.nextId + 1, qIdx := s.qIdx }
          rA rU evF rF s2 hA hfn hU)]
    simp

/-- Witness for C3: a guarded function that throws error 7, run while
client 2 is bound; the unlock statement is still issued and the error
propagates. -/
theorem c3_witness :
    withLock 11 (M.throw (α := Nat) 7) ⟨fun _ => .ok ⟨[]⟩⟩ ⟨some 2, 0, 0⟩ =
      ([.query 2 lockSql [11], .query 2 unlockSql [11]], .error 7, ⟨some 2, 0, 2⟩) := by
  have h := (c3_withLock_release_always Nat 11 (M.throw 7)
    ⟨fun _ => .ok ⟨[]⟩⟩ ⟨some 2, 0, 0⟩ ⟨[]⟩ ⟨[]⟩ [] (.error 7) ⟨some 2, 0, 1⟩).1
    2 rfl rfl rfl rfl
  simpa using h

/-- The body of `tryWithLock` on a given client when the attempt is not
granted: only the try statement is issued and the report is
`notAcquired`, independently of the guarded function. -/
theorem tryWithLock_body_notGranted (key : Int) (fn : M α) (c : ClientId)
    (db : Db) (s : PoolSt) (resp : QueryResult)
    (hresp : db.resp s.qIdx = .ok resp)
    (hng : rowsAcquired resp ≠ some true) :
    (M.bind (clientQuery c tryLockSql [key]) fun result =>
      if rowsAcquired result = some true then
        M.tryFinally (M.bind fn fun r => M.pure (TryWithLockResult.acquired r))
          (clientQuery c unlockSql [key])
      else M.pure TryWithLockResult.notAcquired) db s =
    ([.query c tryLockSql [key]], .ok .notAcquired, { s with qIdx := s.qIdx + 1 }) := by
  unfold M.bind clientQuery M.pure
  simp [hresp, hng]

/-- The body of `tryWithLock` on a given client when the attempt is
granted: try statement, the guarded function, then the unlock statement;
the guarded function's outcome is reported after the unlock. -/
theorem tryWithLock_body_granted (key : Int) (fn : M α) (c : ClientId)
    (db : Db) (s : PoolSt) (resp rU : QueryResult)
    (evF : List Event) (rF : Except Err α) (s2 : PoolSt)
    (hresp : db.resp s.qIdx = .ok resp)
    (hg : rowsAcquired resp = some true)
    (hfn : fn db { s with qIdx := s.qIdx + 1 } = (evF, rF, s2))
    (hU : db.resp s2.qIdx = .ok rU) :
    (M.bind (clientQuery c tryLockSql [key]) fun result =>
      if rowsAcquired result = some true then
        M.tryFinally (M.bind fn fun r => M.pure (TryWithLockResult.acquired r))
          (clientQuery c unlockSql [key])
      else M.pure TryWithLockResult.notAcquired) db s =
    (.query c tryLockSql [key] :: (evF ++ [.query c unlockSql [key]]),
      rF.map TryWithLockResult.acquired, { s2 with qIdx := s2.qIdx + 1 }) := by
  unfold M.bind M.tryFinally clientQuery M.pure
  rcases rF with e | a <;>
    simp [hresp, hg, hfn, hU, Except.map, List.singleton_append]

/-- Claim C4: `tryWithLock` issues the non-blocking attempt; when granted it
runs `fn`, always issues the unlock afterward (so `fn`'s success or
failure is reported only after the release statement), and reports
`acquired` with `fn`'s result; when not granted it reports `notAcquired`
without running `fn` at all (the run does not depend on `fn`). Stated for
all four paths: reusing (a client bound) and outermost (fresh client,
additionally released to the pool after the unlock), each granted or
not granted. -/
theorem c4_tryWithLock_branches :
    ∀ (α : Type) (key : Int) (fn : M α) (db : Db) (s : PoolSt) (resp : QueryResult),
      db.resp s.qIdx = .ok resp →
      ((∀ c : ClientId, s.storage = some c → rowsAcquired resp = some true →
        ∀ (rU : QueryResult) (evF : List Event) (rF : Except Err α) (s2 : PoolSt),
          fn db { s with qIdx := s.qIdx + 1 } = (evF, rF, s2) →
          db.resp s2.qIdx = .ok rU →
          tryWithLock key fn db s =
            (.query c tryLockSql [key] :: (evF ++ [.query c unlockSql [key]]),
              rF.map TryWithLockResult.acquired,
              { s2 with qIdx := s2.qIdx + 1 })) ∧
      (∀ c : ClientId, s.storage = some c → rowsAcquired resp ≠ some true →
        tryWithLock key fn db s =
          ([.query c tryLockSql [key]], .ok .notAcquired,
            { s with qIdx := s.qIdx + 1 })) ∧
      (s.storage = none → rowsAcquired resp = some true →
        ∀ (rU : QueryResult) (evF : List Event) (rF : Except Err α) (s2 : PoolSt),
          fn db { storage := some s.nextId, nextId := s.nextId + 1, qIdx := s.qIdx + 1 } =
            (evF, rF, s2) →
          db.resp s2.qIdx = .ok rU →
          tryWithLock key fn db s =
            (.connect s.nextId :: .query s.nextId tryLockSql [key] ::
                (evF ++ [.query s.nextId unlockSql [key], .releaseClient s.nextId]),
              rF.map TryWithLockResult.acquired,
              { s2 with qIdx := s2.qIdx + 1, storage := none })) ∧
      (s.storage = none → rowsAcquired resp ≠ some true →
        tryWithLock key fn db s =
          ([.connect s.nextId, .query s.nextId tryLockSql [key], .releaseClient s.nextId],
            .ok .notAcquired,
            { s with storage := none, nextId := s.nextId + 1, qIdx := s.qIdx + 1 }))) := by
  intro α key fn db s resp hresp
  refine ⟨?_, ?_, ?_, ?_⟩
  · intro c hs hg rU evF rF s2 hfn hU
    rw [tryWithLock, withClient_reuse _ c db s hs]
    exact tryWithLock_body_granted key fn c db s resp rU evF rF s2 hresp hg hfn hU
  · intro c hs hng
    rw [tryWithLock, withClient_reuse _ c db s hs]
    exact tryWithLock_body_notGranted key fn c db s resp hresp hng
  · intro hs hg rU evF rF s2 hfn hU
    rw [tryWithLock,
      withClient_fresh _ db s hs
        (.query s.nextId tryLockSql [key] :: (evF ++ [.query s.nextId unlockSql [key]]))
        (rF.map TryWithLockResult.acquired) { s2 with qIdx := s2.qIdx + 1 }
        (tryWithLock_body_granted key fn s.nextId db
          { storage := some s.nextId, nextId := s.nextId + 1, qIdx := s.qIdx }
          resp rU evF rF s2 hresp hg hfn hU)]
    simp
  · intro hs hng
    rw [tryWithLock,
      withClient_fresh _ db s hs [.query s.nextId tryLockSql [key]]
        (.ok .notAcquired)
        { storage := some s.nextId, nextId := s.nextId + 1, qIdx := s.qIdx + 1 }
        (tryWithLock_body_notGranted key fn s.nextId db
          { storage := some s.nextId, nextId := s.nextId + 1, qIdx := s.qIdx }
          resp hresp hng)]
    simp [hs]

/-- Witness for C4 on all four paths: with client 3 bound, a granted
attempt around a function returning 42 and a not-granted attempt around
a function that would throw (and does not run); from an empty binding, a
granted attempt on the fresh client 0 (released after the unlock) and a
not-granted attempt. -/
theorem c4_witness :
    tryWithLock 5 (M.pure 42) ⟨fun _ => .ok ⟨[some true]⟩⟩ ⟨some 3, 0, 0⟩ =
      ([.query 3 tryLockSql [5], .query 3 unlockSql [5]],
        .ok (.acquired 42), ⟨some 3, 0, 2⟩) ∧
    tryWithLock 5 (M.throw (α := Nat) 9) ⟨fun _ => .ok ⟨[some false]⟩⟩ ⟨some 3, 0, 0⟩ =
      ([.query 3 tryLockSql [5]], .ok .notAcquired, ⟨some 3, 0, 1⟩) ∧
    tryWithLock 5 (M.pure 42) ⟨fun _ => .ok ⟨[some true]⟩⟩ ⟨none, 0, 0⟩ =
      ([.connect 0, .query 0 tryLockSql [5], .query 0 unlockSql [5], .releaseClient 0],
        .ok (.acquired 42), ⟨none, 1, 2⟩) ∧
    tryWithLock 5 (M.pure 42) ⟨fun _ => .ok ⟨[some false]⟩⟩ ⟨none, 0, 0⟩ =
      ([.connect 0, .query 0 tryLockSql [5], .releaseClient 0],
        .ok .notAcquired, ⟨none, 1, 1⟩) := by
  refine ⟨?_, ?_, ?_, ?_⟩
  · have h := (c4_tryWithLock_branches Nat 5 (M.pure 42)
      ⟨fun _ => .ok ⟨[some true]⟩⟩ ⟨some 3, 0, 0⟩ ⟨[some true]⟩ rfl).1
      3 rfl rfl ⟨[some true]⟩ [] (.ok 42) ⟨some 3, 0, 1⟩ rfl rfl
    simpa using h
  · exact (c4_tryWithLock_branches Nat 5 (M.throw 9)
      ⟨fun _ => .ok ⟨[some false]⟩⟩ ⟨some 3, 0, 0⟩ ⟨[some false]⟩ rfl).2.1
      3 rfl (by simp [rowsAcquired])
  · have h := (c4_tryWithLock_branches Nat 5 (M.pure 42)
      ⟨fun _ => .ok ⟨[some true]⟩⟩ ⟨none, 0, 0⟩ ⟨[some true]⟩ rfl).2.2.1
      rfl rfl ⟨[some true]⟩ [] (.ok 42) ⟨some 0, 1, 1⟩ rfl rfl
    simpa using h
  · exact (c4_tryWithLock_branches Nat 5 (M.pure 42)
      ⟨fun _ => .ok ⟨[some false]⟩⟩ ⟨none, 0, 0⟩ ⟨[some false]⟩ rfl).2.2.2
      rfl (by simp [rowsAcquired])

/-- A response whose first row's `acquired` field is not the value `true`
(no rows, field absent, or field `false`) is never read as granted. -/
theorem rowsAcquired_ne_true (resp : QueryResult)
    (h : resp.rows = [] ∨ resp.rows.head? = some none ∨
      resp.rows.head? = some (some false)) :
    rowsAcquired resp ≠ some true := by
  rcases h with h | h | h <;> simp [rowsAcquired, h]

/-- `tryLock` from an empty binding when the attempt is not granted:
fresh connect, the try statement, then the connection is released and
`undefined` is reported; no error is raised. -/
theorem tryLock_fresh_notGranted (key : Int) (db : Db) (s : PoolSt)
    (resp : QueryResult)
    (hs : s.storage = none)
    (hresp : db.resp s.qIdx = .ok resp)
    (hng : rowsAcquired resp ≠ some true) :
    tryLock key db s =
      ([.connect s.nextId, .query s.nextId tryLockSql [key], .releaseClient s.nextId],
        .ok none,
        { s with storage := none, nextId := s.nextId + 1, qIdx := s.qIdx + 1 }) := by
  unfold tryLock getClient M.bind getStore connect enterWith M.pure M.tryCatch
    clientQuery disable clientRelease
  simp [hs, hresp, hng]

/-- Claim C10: when the non-blocking acquire returns zero rows, a row with
the `acquired` field absent, or a falsy `acquired` field, the attempt is
treated as not granted: `tryWithLock` reports `notAcquired` without
running its function (whether a client was bound or freshly acquired),
`tryLock` releases the connection and reports `undefined`, and in every
case the outcome is `.ok` — the row access raises nothing. -/
theorem c10_absent_falsy_not_granted :
    ∀ (key : Int) (db : Db) (s : PoolSt) (resp : QueryResult),
      db.resp s.qIdx = .ok resp →
      (resp.rows = [] ∨ resp.rows.head? = some none ∨
        resp.rows.head? = some (some false)) →
      (∀ (α : Type) (fn : M α) (c : ClientId), s.storage = some c →
        tryWithLock key fn db s =
          ([.query c tryLockSql [key]], .ok .notAcquired,
            { s with qIdx := s.qIdx + 1 })) ∧
      (∀ (α : Type) (fn : M α), s.storage = none →
        tryWithLock key fn db s =
          ([.connect s.nextId, .query s.nextId tryLockSql [key],
              .releaseClient s.nextId],
            .ok .notAcquired,
            { s with storage := none, nextId := s.nextId + 1, qIdx := s.qIdx + 1 })) ∧
      (s.storage = none →
        tryLock key db s =
          ([.connect s.nextId, .query s.nextId tryLockSql [key],
              .releaseClient s.nextId],
            .ok none,
            { s with storage := none, nextId := s.nextId + 1, qIdx := s.qIdx + 1 })) := by
  intro key db s resp hresp hrows
  have hng := rowsAcquired_ne_true resp hrows
  refine ⟨?_, ?_, ?_⟩
  · intro α fn c hs
    rw [tryWithLock, withClient_reuse _ c db s hs]
    exact tryWithLock_body_notGranted key fn c db s resp hresp hng
  · intro α fn hs
    rw [tryWithLock,
      withClient_fresh _ db s hs [.query s.nextId tryLockSql [key]]
        (.ok .notAcquired)
        { storage := some s.nextId, nextId := s.nextId + 1, qIdx := s.qIdx + 1 }
        (tryWithLock_body_notGranted key fn s.nextId db
          { storage := some s.nextId, nextId := s.nextId + 1, qIdx := s.qIdx }
          resp hresp hng)]
    simp [hs]
  · intro hs
    exact tryLock_fresh_notGranted key db s resp hs hresp hng

/-- Witness for C10 at the three concrete row shapes: zero rows with
client 6 bound, an absent field with a fresh client, and a false field
with a fresh client. -/
theorem c10_witness :
    tryWithLock 2 (M.pure 1) ⟨fun _ => .ok ⟨[]⟩⟩ ⟨some 6, 0, 0⟩ =
      ([.query 6 tryLockSql [2]], .ok .notAcquired, ⟨some 6, 0, 1⟩) ∧
    tryWithLock 2 (M.pure 1) ⟨fun _ => .ok ⟨[none]⟩⟩ ⟨none, 0, 0⟩ =
      ([.connect 0, .query 0 tryLockSql [2], .releaseClient 0],
        .ok .notAcquired, ⟨none, 1, 1⟩) ∧
    tryLock 2 ⟨fun _ => .ok ⟨[some false]⟩⟩ ⟨none, 0, 0⟩ =
      ([.connect 0, .query 0 tryLockSql [2], .releaseClient 0],
        .ok none, ⟨none, 1, 1⟩) := by
  refine ⟨?_, ?_, ?_⟩
  · exact (c10_absent_falsy_not_granted 2 ⟨fun _ => .ok ⟨[]⟩⟩ ⟨some 6, 0, 0⟩
      ⟨[]⟩ rfl (Or.inl rfl)).1 Nat (M.pure 1) 6 rfl
  · exact (c10_absent_falsy_not_granted 2 ⟨fun _ => .ok ⟨[none]⟩⟩ ⟨none, 0, 0⟩
      ⟨[none]⟩ rfl (Or.inr (Or.inl rfl))).2.1 Nat (M.pure 1) rfl
  · exact (c10_absent_falsy_not_granted 2 ⟨fun _ => .ok ⟨[some false]⟩⟩ ⟨none, 0, 0⟩
      ⟨[some false]⟩ rfl (Or.inr (Or.inr rfl))).2.2 rfl

/-! ## Trace properties of the emitted SQL -/

/-- Every event of every run of `m` satisfies `P`. -/
def EvPred (P : Event → Prop) (m : M α) : Prop :=
  ∀ (db : Db) (s : PoolSt), ∀ ev ∈ (m db s).1, P ev

/-- Non-`query` events satisfy it vacuously; a `query` event must bind
exactly `[key]` and use one of the listed statements. -/
def QueryShape (key : Int) (sqls : List String) : Event → Prop
  | .query _ sql ps => ps = [key] ∧ sql ∈ sqls
  | _ => True

theorem evPred_pure (P : Event → Prop) (a : α) : EvPred P (M.pure a) := by
  intro db s ev h
  simp [M.pure] at h

theorem evPred_throw (P : Event → Prop) (e : Err) :
    EvPred P (M.throw (α := α) e) := by
  intro db s ev h
  simp [M.throw] at h

theorem evPred_bind {P : Event → Prop} {m : M α} {f : α → M β}
    (hm : EvPred P m) (hf : ∀ a, EvPred P (f a)) : EvPred P (M.bind m f) := by
  intro db s ev h
  unfold M.bind at h
  rcases hrun : m db s with ⟨ev1, r1, s1⟩
  rw [hrun] at h
  have hm1 : ∀ x ∈ ev1, P x := by
    intro x hx
    exact hm db s x (by rw [hrun]; exact hx)
  rcases r1 with e | a
  · exact hm1 ev (by simpa using h)
  · dsimp only at h
    rcases hrun2 : f a db s1 with ⟨ev2, r2, s2⟩
    rw [hrun2] at h
    simp only [List.mem_append] at h
    rcases h with h | h
    · exact hm1 ev h
    · exact hf a db s1 ev (by rw [hrun2]; exact h)

theorem evPred_tryFinally {P : Event → Prop} {m : M α} {fin : M β}
    (hm : EvPred P m) (hf : EvPred P fin) : EvPred P (M.tryFinally m fin) := by
  intro db s ev h
  unfold M.tryFinally at h
  rcases hrun : m db s with ⟨ev1, r1, s1⟩
  rw [hrun] at h
  dsimp only at h
  rcases hrun2 : fin db s1 with ⟨ev2, r2, s2⟩
  rw [hrun2] at h
  have hm1 : ∀ x ∈ ev1, P x := fun x hx => hm db s x (by rw [hrun]; exact hx)
  have hm2 : ∀ x ∈ ev2, P x := fun x hx => hf db s1 x (by rw [hrun2]; exact hx)
  rcases r2 with e | b <;> simp only [List.mem_append] at h <;>
    rcases h with h | h
  · exact hm1 ev h
  · exact hm2 ev h
  · exact hm1 ev h
  · exact hm2 ev h

theorem evPred_tryCatch {P : Event → Prop} {m : M α} {hnd : Err → M α}
    (hm : EvPred P m) (hh : ∀ e, EvPred P (hnd e)) : EvPred P (M.tryCatch m hnd) := by
  intro db s ev h
  unfold M.tryCatch at h
  rcases hrun : m db s with ⟨ev1, r1, s1⟩
  rw [hrun] at h
  have hm1 : ∀ x ∈ ev1, P x := fun x hx => hm db s x (by rw [hrun]; exact hx)
  rcases r1 with e | a
  · dsimp only at h
    rcases hrun2 : hnd e db s1 with ⟨ev2, r2, s2⟩
    rw [hrun2] at h
    simp only [List.mem_append] at h
    rcases h with h | h
    · exact hm1 ev h
    · exact hh e db s1 ev (by rw [hrun2]; exact h)
  · exact hm1 ev (by simpa using h)

theorem evPred_clientQuery {P : Event → Prop} (c : ClientId) (sql : String)
    (ps : List Int) (hP : ∀ c0 : ClientId, P (.query c0 sql ps)) :
    EvPred P (clientQuery c sql ps) := by
  intro db s ev h
  simp only [clientQuery, List.mem_singleton] at h
  rw [h]
  exact hP c

theorem evPred_connect {P : Event → Prop} (hP : ∀ c, P (.connect c)) :
    EvPred P connect := by
  intro db s ev h
  simp only [connect, List.mem_singleton] at h
  rw [h]
  exact hP s.nextId

theorem evPred_clientRelease {P : Event → Prop} (c : ClientId)
    (hP : ∀ c0, P (.releaseClient c0)) : EvPred P (clientRelease c) := by
  intro db s ev h
  simp only [clientRelease, List.mem_singleton] at h
  rw [h]
  exact hP c

theorem evPred_getStore (P : Event → Prop) : EvPred P getStore := by
  intro db s ev h
  simp [getStore] at h

theorem evPred_enterWith (P : Event → Prop) (c : ClientId) :
    EvPred P (enterWith c) := by
  intro db s ev h
  simp [enterWith] at h

theorem evPred_disable (P : Event → Prop) : EvPred P disable := by
  intro db s ev h
  simp [disable] at h

theorem evPred_alsRun {P : Event → Prop} (c : ClientId) {m : M α}
    (hm : EvPred P m) : EvPred P (alsRun c m) := by
  intro db s ev h
  unfold alsRun at h
  rcases hrun : m db { s with storage := some c } with ⟨ev1, r1, s1⟩
  rw [hrun] at h
  exact hm db _ ev (by rw [hrun]; exact h)

theorem evPred_withClient {P : Event → Prop} {fn : ClientId → M α}
    (hconn : ∀ c, P (.connect c)) (hrel : ∀ c, P (.releaseClient c))
    (hfn : ∀ c, EvPred P (fn c)) : EvPred P (withClient fn) := by
  unfold withClient
  refine evPred_bind (evPred_getStore P) ?_
  intro store
  rcases store with _ | c
  · exact evPred_bind (evPred_connect hconn) fun c =>
      evPred_alsRun c (evPred_tryFinally (hfn c) (evPred_clientRelease c hrel))
  · exact hfn c

theorem evPred_getClient {P : Event → Prop}
    (hconn : ∀ c, P (.connect c)) : EvPred P getClient := by
  unfold getClient
  refine evPred_bind (evPred_getStore P) ?_
  intro store
  rcases store with _ | c
  · exact evPred_bind (evPred_connect hconn) fun c =>
      evPred_bind (evPred_enterWith P c) fun _ => evPred_pure P _
  · exact evPred_pure P _

/-- Every `.ok` value any run of `m` produces satisfies `Q`. -/
def ResultPred (Q : α → Prop) (m : M α) : Prop :=
  ∀ (db : Db) (s : PoolSt) (a : α), (m db s).2.1 = .ok a → Q a

/-- `evPred_bind` refined by an invariant on the values the first
computation can actually produce. -/
theorem evPred_bind_inv {P : Event → Prop} {Q : α → Prop} {m : M α} {f : α → M β}
    (hQ : ResultPred Q m) (hm : EvPred P m)
    (hf : ∀ a, Q a → EvPred P (f a)) : EvPred P (M.bind m f) := by
  intro db s ev h
  unfold M.bind at h
  rcases hrun : m db s with ⟨ev1, r1, s1⟩
  rw [hrun] at h
  have hm1 : ∀ x ∈ ev1, P x := fun x hx => hm db s x (by rw [hrun]; exact hx)
  rcases r1 with e | a
  · exact hm1 ev (by simpa using h)
  · dsimp only at h
    have ha : Q a := hQ db s a (by rw [hrun])
    rcases hrun2 : f a db s1 with ⟨ev2, r2, s2⟩
    rw [hrun2] at h
    simp only [List.mem_append] at h
    rcases h with h | h
    · exact hm1 ev h
    · exact hf a ha db s1 ev (by rw [hrun2]; exact h)

/-- The release callback `getClient` hands out is always either the no-op
(reuse) or the disable-then-release of some client (fresh acquisition). -/
theorem getClient_release_inv :
    ResultPred
      (fun npc => npc.release = M.pure ⟨⟩ ∨
        ∃ c, npc.release = M.bind disable fun _ => clientRelease c)
      getClient := by
  intro db s npc h
  unfold getClient M.bind getStore connect enterWith M.pure at h
  rcases hst : s.storage with _ | c <;> rw [hst] at h <;> dsimp only at h
  · cases h
    exact Or.inr ⟨s.nextId, rfl⟩
  · cases h
    exact Or.inl rfl

/-- Counterexample to claim C7 as stated: the non-blocking attempt of the
code emits `SELECT pg_try_advisory_lock($1) as acquired` — with a
lowercase `as` — which is not the exact statement
`SELECT pg_try_advisory_lock($1) AS acquired` that the claim names. -/
theorem c7_counterexample :
    (tryWithLock 0 (M.pure 1) ⟨fun _ => .ok ⟨[]⟩⟩ ⟨some 0, 0, 0⟩).1 =
      [Event.query 0 "SELECT pg_try_advisory_lock($1) as acquired" [0]] ∧
    "SELECT pg_try_advisory_lock($1) as acquired" ≠
      "SELECT pg_try_advisory_lock($1) AS acquired" := by
  constructor
  · rfl
  · decide

/-- Claim C7 (amended: the non-blocking statement is spelled with a
lowercase `as`): the three statement strings of src/mutex.ts are exactly
`SELECT pg_advisory_lock($1)` (blocking acquire of `withLock`),
`SELECT pg_try_advisory_lock($1) as acquired` (non-blocking attempt of
`tryWithLock`/`tryLock`, whose `acquired` column `rowsAcquired` reads),
and `SELECT pg_advisory_unlock($1)` (release); and every query event any
run of a lock operation emits binds the mutex's key as the single
parameter and uses only that operation's statements. -/
theorem c7_sql_statements :
    lockSql = "SELECT pg_advisory_lock($1)" ∧
    tryLockSql = "SELECT pg_try_advisory_lock($1) as acquired" ∧
    unlockSql = "SELECT pg_advisory_unlock($1)" ∧
    (∀ key : Int,
      EvPred (QueryShape key [lockSql, unlockSql]) (withLock key (M.pure PUnit.unit))) ∧
    (∀ key : Int,
      EvPred (QueryShape key [tryLockSql, unlockSql]) (tryWithLock key (M.pure PUnit.unit))) ∧
    (∀ key : Int, EvPred (QueryShape key [tryLockSql]) (tryLock key)) := by
  refine ⟨rfl, rfl, rfl, ?_, ?_, ?_⟩
  · intro key
    unfold withLock
    refine evPred_withClient (fun c => trivial) (fun c => trivial) ?_
    intro c
    refine evPred_bind (evPred_clientQuery c lockSql [key] ?_) fun _ =>
      evPred_tryFinally (evPred_pure _ _) (evPred_clientQuery c unlockSql [key] ?_)
    · exact fun c0 => ⟨rfl, by simp⟩
    · exact fun c0 => ⟨rfl, by simp⟩
  · intro key
    unfold tryWithLock
    refine evPred_withClient (fun c => trivial) (fun c => trivial) ?_
    intro c
    refine evPred_bind (evPred_clientQuery c tryLockSql [key] ?_) fun result => ?_
    · exact fun c0 => ⟨rfl, by simp⟩
    by_cases hg : rowsAcquired result = some true
    · rw [if_pos hg]
      exact evPred_tryFinally
        (evPred_bind (evPred_pure _ _) fun r => evPred_pure _ _)
        (evPred_clientQuery c unlockSql [key] fun c0 => ⟨rfl, by simp⟩)
    · rw [if_neg hg]
      exact evPred_pure _ _
  · intro key
    unfold tryLock
    refine evPred_bind_inv getClient_release_inv (evPred_getClient fun c => trivial) ?_
    intro npc hQ
    have hrel : EvPred (QueryShape key [tryLockSql]) npc.release := by
      rcases hQ with h | ⟨c0, h⟩ <;> rw [h]
      · exact evPred_pure _ _
      · exact evPred_bind (evPred_disable _) fun _ =>
          evPred_clientRelease c0 fun c1 => trivial
    refine evPred_tryCatch ?_ ?_
    · refine evPred_bind
        (evPred_clientQuery npc.client tryLockSql [key] fun c0 => ⟨rfl, by simp⟩)
        fun result => ?_
      by_cases hg : rowsAcquired result = some true
      · rw [if_pos hg]
        exact evPred_pure _ _
      · rw [if_neg hg]
        exact evPred_bind hrel fun _ => evPred_pure _ _
    · intro e
      exact evPred_bind hrel fun _ => evPred_throw _ _

/-- Witness for C7 (amended) at a concrete run: the acquire statement that
`withLock 5` emits on bound client 2 carries `[5]` as its only parameter
and is one of the two statements of `withLock`. -/
theorem c7_witness :
    QueryShape 5 [lockSql, unlockSql] (Event.query 2 lockSql [5]) :=
  c7_sql_statements.2.2.2.1 5 ⟨fun _ => .ok ⟨[]⟩⟩ ⟨some 2, 0, 0⟩
    (Event.query 2 lockSql [5]) (by decide)

end PgAdvisoryLock
